import Mathlib

/-!
Shallow embedding of the causal voxel engine of `tel-0s/ultimate-minecraft`
(crates `engine` and `server`), together with proofs checking the
natural-language specification against it.

Machine integers are modelled as `Int`/`Nat` with explicit wrapping where the
source casts (`i64 -> i32`).  The flat 4096-element section array is modelled
as a function from flat index to block id; a `HashMap`/`DashMap` is modelled
as an association list (for the chunk map, where the spec talks about counts)
or as a function into `Option` (for the section map of a chunk).
-/

set_option autoImplicit false

namespace UltimateMC

/-- Opaque 16-bit block identifier (`engine/src/world/block.rs`, `BlockId(pub u16)`). -/
structure BlockId where
  val : Nat
deriving DecidableEq, Repr

/-- The universal "empty" block (`BlockId::AIR = BlockId(0)`). -/
def BlockId.AIR : BlockId := ⟨0⟩

/-- Wrapping cast of an integer into the `i32` range, modelling `as i32`. -/
def wrap32 (n : Int) : Int :=
  (n + 2 ^ 31) % 2 ^ 32 - 2 ^ 31

/-- Chunk column position (`position.rs`, `ChunkPos { x: i32, z: i32 }`). -/
structure ChunkPos where
  x : Int
  z : Int
deriving DecidableEq, Repr

/-- Block position local to a chunk (`position.rs`, `LocalBlockPos`).
The source stores `x`/`z` as `u8` obtained by masking with `0xF`; we model
them as `Nat` (values produced by `BlockPos::local` are below 16). -/
structure LocalBlockPos where
  x : Nat
  y : Int
  z : Nat
deriving DecidableEq, Repr

/-- Absolute block position (`position.rs`, `BlockPos { x, y, z : i64 }`). -/
structure BlockPos where
  x : Int
  y : Int
  z : Int
deriving DecidableEq, Repr

namespace BlockPos

/-- `BlockPos::chunk`: `(x >> 4) as i32, (z >> 4) as i32` (arithmetic shift = floor division). -/
def chunk (p : BlockPos) : ChunkPos :=
  ⟨wrap32 (Int.fdiv p.x 16), wrap32 (Int.fdiv p.z 16)⟩

/-- `BlockPos::local`: `(x & 0xF) as u8, y, (z & 0xF) as u8`.  Masking the low
four bits of a two's-complement integer is the Euclidean remainder mod 16. -/
def local_ (p : BlockPos) : LocalBlockPos :=
  ⟨(p.x % 16).toNat, p.y, (p.z % 16).toNat⟩

/-- `BlockPos::neighbors`: the six cardinal neighbours, in source order. -/
def neighbors (p : BlockPos) : List BlockPos :=
  [⟨p.x + 1, p.y, p.z⟩, ⟨p.x - 1, p.y, p.z⟩,
   ⟨p.x, p.y + 1, p.z⟩, ⟨p.x, p.y - 1, p.z⟩,
   ⟨p.x, p.y, p.z + 1⟩, ⟨p.x, p.y, p.z - 1⟩]

end BlockPos

namespace LocalBlockPos

/-- `LocalBlockPos::section_index`: `(y >> 4) as i32`. -/
def section_index (p : LocalBlockPos) : Int :=
  wrap32 (Int.fdiv p.y 16)

/-- `LocalBlockPos::section_local_y`: `y.rem_euclid(16) as u8`. -/
def section_local_y (p : LocalBlockPos) : Nat :=
  (p.y % 16).toNat

end LocalBlockPos

/-- Total block count of one 16x16x16 section. -/
def SECTION_VOLUME : Nat := 4096

/-- A dense 16x16x16 cube of blocks (`chunk.rs`, `ChunkSection`).  The flat
`Box<[BlockId; 4096]>` array is modelled as a function from the flat index;
only indices below 4096 are ever read or written by in-range callers (the
source indexing panics outside the array). -/
structure ChunkSection where
  blocks : Nat → BlockId

namespace ChunkSection

/-- `ChunkSection::index`: `y*16*16 + z*16 + x` (XZY order, x varies fastest). -/
def index (x y z : Nat) : Nat :=
  y * 16 * 16 + z * 16 + x

/-- `ChunkSection::new_filled`. -/
def new_filled (b : BlockId) : ChunkSection :=
  ⟨fun _ => b⟩

/-- `ChunkSection::new_empty`. -/
def new_empty : ChunkSection :=
  new_filled BlockId.AIR

/-- `ChunkSection::get`. -/
def get (s : ChunkSection) (x y z : Nat) : BlockId :=
  s.blocks (index x y z)

/-- `ChunkSection::set`. -/
def set (s : ChunkSection) (x y z : Nat) (b : BlockId) : ChunkSection :=
  ⟨Function.update s.blocks (index x y z) b⟩

/-- `ChunkSection::is_empty`: `blocks.iter().all(|b| *b == AIR)`. -/
def is_empty (s : ChunkSection) : Bool :=
  (List.range SECTION_VOLUME).all fun i => decide (s.blocks i = BlockId.AIR)

end ChunkSection

/-- A sparse column of sections keyed by section index (`chunk.rs`, `Chunk`).
The `HashMap<i32, ChunkSection>` is modelled as a function into `Option`. -/
structure Chunk where
  sections : Int → Option ChunkSection

namespace Chunk

/-- `Chunk::new`. -/
def new : Chunk :=
  ⟨fun _ => none⟩

/-- `Chunk::get_block`: read through the section map, AIR when absent. -/
def get_block (c : Chunk) (pos : LocalBlockPos) : BlockId :=
  match c.sections pos.section_index with
  | some s => s.get pos.x pos.section_local_y pos.z
  | none => BlockId.AIR

/-- `Chunk::set_block`: writing AIR updates an existing section and removes it
if it became empty (an absent section is left absent); writing any other block
inserts into the existing section or a fresh empty one. -/
def set_block (c : Chunk) (pos : LocalBlockPos) (b : BlockId) : Chunk :=
  let idx := pos.section_index
  if b = BlockId.AIR then
    match c.sections idx with
    | some s =>
      let s' := s.set pos.x pos.section_local_y pos.z b
      if s'.is_empty then
        ⟨Function.update c.sections idx none⟩
      else
        ⟨Function.update c.sections idx (some s')⟩
    | none => c
  else
    let s := (c.sections idx).getD ChunkSection.new_empty
    ⟨Function.update c.sections idx (some (s.set pos.x pos.section_local_y pos.z b))⟩

end Chunk

/-- First-match association-list lookup, modelling map lookup keyed by
`ChunkPos` (`DashMap::get`). -/
def assocLookup {κ ν : Type} [DecidableEq κ] (k : κ) : List (κ × ν) → Option ν
  | [] => none
  | (k', v) :: t => if k' = k then some v else assocLookup k t

/-- Replace the value at the first occurrence of `k`, appending when absent;
models `DashMap::entry(k).or_default()` followed by a mutation. -/
def assocUpdate {κ ν : Type} [DecidableEq κ] (k : κ) (v : ν) : List (κ × ν) → List (κ × ν)
  | [] => [(k, v)]
  | (k', v') :: t => if k' = k then (k', v) :: t else (k', v') :: assocUpdate k v t

/-- Set-semantics insertion into a list of distinct elements (`DashSet::insert`). -/
def insertSet {κ : Type} [DecidableEq κ] (k : κ) (l : List κ) : List κ :=
  if k ∈ l then l else k :: l

/-- The whole block world (`world/mod.rs`, `World`): a map from chunk position
to chunk plus the dirty set.  The `DashMap` is modelled as an association list
(so `chunk_count` is its length), the `DashSet` as a duplicate-free list. -/
structure World where
  chunks : List (ChunkPos × Chunk)
  dirty : List ChunkPos

namespace World

/-- `World::new`. -/
def new : World :=
  ⟨[], []⟩

/-- `World::get_block`: AIR for unloaded chunks. -/
def get_block (w : World) (pos : BlockPos) : BlockId :=
  match assocLookup pos.chunk w.chunks with
  | some c => c.get_block pos.local_
  | none => BlockId.AIR

/-- `World::set_block`: `entry(chunk_pos).or_default().set_block(local, b)`,
then mark the chunk dirty. -/
def set_block (w : World) (pos : BlockPos) (b : BlockId) : World :=
  let cp := pos.chunk
  let c := (assocLookup cp w.chunks).getD Chunk.new
  ⟨assocUpdate cp (c.set_block pos.local_ b) w.chunks, insertSet cp w.dirty⟩

/-- `World::has_chunk`. -/
def has_chunk (w : World) (pos : ChunkPos) : Bool :=
  (assocLookup pos w.chunks).isSome

/-- `World::chunk_count`. -/
def chunk_count (w : World) : Nat :=
  w.chunks.length

end World

/-! ## Block identities and the fluid abstraction (`server/src/block.rs`) -/

namespace Block

def AIR : BlockId := ⟨0⟩
def STONE : BlockId := ⟨1⟩
def DIRT : BlockId := ⟨10⟩
def BEDROCK : BlockId := ⟨85⟩
def SAND : BlockId := ⟨118⟩
/-- Source water block, `water[level=0]` (block state 86). -/
def WATER : BlockId := ⟨86⟩
/-- Source lava block, `lava[level=0]` (block state 102). -/
def LAVA : BlockId := ⟨102⟩

end Block

/-- Which kind of fluid a block id belongs to (`block.rs`, `FluidKind`). -/
inductive FluidKind where
  | Water
  | Lava
deriving DecidableEq, Repr

namespace FluidKind

/-- `FluidKind::base_id`. -/
def base_id : FluidKind → Nat
  | Water => 86
  | Lava => 102

/-- `FluidKind::max_spread`: water 7, lava 3. -/
def max_spread : FluidKind → Nat
  | Water => 7
  | Lava => 3

/-- `FluidKind::source` (level 0). -/
def source (k : FluidKind) : BlockId :=
  ⟨k.base_id⟩

/-- `FluidKind::at_level`: fluid block at a level, clamped to 15. -/
def at_level (k : FluidKind) (level : Nat) : BlockId :=
  ⟨k.base_id + min level 15⟩

/-- `FluidKind::level`: the level when `id` is this fluid, else `none`. -/
def level (k : FluidKind) (id : BlockId) : Option Nat :=
  if k.base_id ≤ id.val ∧ id.val ≤ k.base_id + 15 then
    some (id.val - k.base_id)
  else
    none

/-- `FluidKind::is_match`: does `id` belong to this fluid at any level? -/
def is_match (k : FluidKind) (id : BlockId) : Bool :=
  decide (k.base_id ≤ id.val ∧ id.val ≤ k.base_id + 15)

end FluidKind

namespace Block

/-- `block::fluid_kind`: water first, then lava. -/
def fluid_kind (id : BlockId) : Option (FluidKind × Nat) :=
  match FluidKind.Water.level id with
  | some l => some (FluidKind.Water, l)
  | none =>
    match FluidKind.Lava.level id with
    | some l => some (FluidKind.Lava, l)
    | none => none

/-- `block::is_fluid`. -/
def is_fluid (id : BlockId) : Bool :=
  (fluid_kind id).isSome

/-- `block::has_gravity`: only sand falls. -/
def has_gravity (id : BlockId) : Bool :=
  id = SAND

/-- `block::is_replaceable`: AIR or any fluid. -/
def is_replaceable (id : BlockId) : Bool :=
  id = AIR || is_fluid id

end Block

/-! ## Events (`engine/src/causal/event.rs`) -/

/-- What happened (`EventPayload`). -/
inductive EventPayload where
  | BlockSet (pos : BlockPos) (old new : BlockId)
  | BlockNotify (pos : BlockPos)
deriving DecidableEq, Repr

/-- A single atomic change to the world (`Event`). -/
structure Event where
  payload : EventPayload
deriving DecidableEq, Repr

/-- The event's primary position (both variants carry one position). -/
def EventPayload.pos : EventPayload → BlockPos
  | .BlockSet p _ _ => p
  | .BlockNotify p => p

/-! ## Rule helpers (`server/src/rules/helpers.rs`) -/

namespace Rules

/-- `helpers::block_set`. -/
def block_set (pos : BlockPos) (old new : BlockId) : Event :=
  ⟨.BlockSet pos old new⟩

/-- `helpers::notify`. -/
def notify (pos : BlockPos) : Event :=
  ⟨.BlockNotify pos⟩

/-- `helpers::horizontal_neighbors`: the four horizontal neighbours, in
source order (+X, -X, +Z, -Z). -/
def horizontal_neighbors (pos : BlockPos) : List BlockPos :=
  [⟨pos.x + 1, pos.y, pos.z⟩, ⟨pos.x - 1, pos.y, pos.z⟩,
   ⟨pos.x, pos.y, pos.z + 1⟩, ⟨pos.x, pos.y, pos.z - 1⟩]

/-- `helpers::notify_neighbors`: notify all six cardinal neighbours. -/
def notify_neighbors (pos : BlockPos) : List Event :=
  (pos.neighbors).map notify

/-- `helpers::notify_horizontal`. -/
def notify_horizontal (pos : BlockPos) : List Event :=
  (horizontal_neighbors pos).map notify

/-- The position one cell below. -/
def below (pos : BlockPos) : BlockPos :=
  ⟨pos.x, pos.y - 1, pos.z⟩

/-- The position one cell above. -/
def above (pos : BlockPos) : BlockPos :=
  ⟨pos.x, pos.y + 1, pos.z⟩

/-! ## Gravity rule (`server/src/rules/block_updates.rs`, `gravity`) -/

/-- `block_updates::gravity`: a gravity-affected block with a replaceable
block below swaps with it and notifies the landing cell and the cell above
the vacated position. -/
def gravity (w : World) (payload : EventPayload) : List Event :=
  let pos := payload.pos
  let block_id := w.get_block pos
  if ¬ Block.has_gravity block_id then
    []
  else
    let below_id := w.get_block (below pos)
    if Block.is_replaceable below_id then
      [block_set pos block_id below_id,
       block_set (below pos) below_id block_id,
       notify (below pos),
       notify (above pos)]
    else
      []

/-! ## Generic fluid rule (standard rule set)

The standard rule set (`server/src/rules/mod.rs`) registers
`block_updates::water_spread` and `block_updates::lava_spread`; their bodies
are not among the available sources (the retained `block_updates::fluid_spread`
is an earlier water-only variant without the removal branch).  The generic
rule below is therefore modelled from the specification, following the
sequential branch structure that the retained variant exhibits (drainage is
checked before falling and spreading). -/

/-- Modelled from the spec: support check of the missing generic fluid rule
(the spec's drainage clause): a flowing cell is supported when there is
same-kind fluid directly above, or a horizontal same-kind neighbour at a
strictly lower level. -/
def has_support (w : World) (k : FluidKind) (pos : BlockPos) (level : Nat) : Bool :=
  k.is_match (w.get_block (above pos)) ||
    (horizontal_neighbors pos).any fun n =>
      match k.level (w.get_block n) with
      | some nl => decide (nl < level)
      | none => false

/-- Modelled from the spec: the core of the missing generic fluid rule
(`water_spread`/`lava_spread`), evaluated at a position already known to
trigger it.  Drainage (on notify, flowing, unsupported) replaces the cell
with AIR and notifies the four horizontal neighbours; otherwise the fluid
falls into AIR below as level 1, and only failing that spreads to horizontal
AIR neighbours at one level higher while strictly below the kind's maximum
spread. -/
def fluid_core (k : FluidKind) (w : World) (pos : BlockPos) (is_notify : Bool) :
    List Event :=
  let block_id := w.get_block pos
  match k.level block_id with
  | none => []
  | some level =>
    if 0 < level ∧ is_notify = true ∧ has_support w k pos level = false then
      block_set pos block_id Block.AIR :: notify_horizontal pos
    else
      let below_id := w.get_block (below pos)
      if below_id = Block.AIR then
        [block_set (below pos) below_id (k.at_level 1)]
      else if k.max_spread ≤ level then
        []
      else
        (horizontal_neighbors pos).filterMap fun n =>
          let nb := w.get_block n
          if nb = Block.AIR then
            some (block_set n nb (k.at_level (level + 1)))
          else
            none

/-- Modelled from the spec: the missing generic fluid rule parameterised by
kind (`water_spread = fluid_spread Water`, `lava_spread = fluid_spread Lava`).
A `BlockSet` whose old block is this fluid and whose new block is not emits
`BlockNotify` for all six face neighbours; otherwise the rule triggers on a
`BlockSet` placing this fluid or a `BlockNotify` at a cell holding it. -/
def fluid_spread (k : FluidKind) (w : World) (payload : EventPayload) : List Event :=
  match payload with
  | .BlockSet pos old new =>
    if k.is_match old = true ∧ k.is_match new = false then
      notify_neighbors pos
    else if k.is_match new then
      fluid_core k w pos false
    else
      []
  | .BlockNotify pos =>
    if k.is_match (w.get_block pos) then
      fluid_core k w pos true
    else
      []

end Rules

/-! ## Causal graph (`engine/src/causal/graph.rs`)

`SlotMap<EventId, EventNode>` with no removals is an arena in insertion
order: event ids are modelled as list indices. -/

/-- A node in the causal DAG (`EventNode`). -/
structure EventNode where
  event : Event
  parents : List Nat
  children : List Nat
  executed : Bool

/-- The causal graph: an append-only DAG of events (`CausalGraph`). -/
structure CausalGraph where
  nodes : List EventNode

namespace CausalGraph

/-- `CausalGraph::new`. -/
def new : CausalGraph :=
  ⟨[]⟩

/-- `CausalGraph::get`. -/
def get (g : CausalGraph) (id : Nat) : Option EventNode :=
  g.nodes.get? id

/-- `CausalGraph::len`. -/
def len (g : CausalGraph) : Nat :=
  g.nodes.length

/-- Update the node at an index, if present. -/
def modifyNode (g : CausalGraph) (id : Nat) (f : EventNode → EventNode) : CausalGraph :=
  ⟨g.nodes.modify f id⟩

/-- `CausalGraph::insert`: append a node and push it onto each listed
parent's child list (once per occurrence, as in the source loop).
Returns the new graph and the fresh id. -/
def insert (g : CausalGraph) (e : Event) (parents : List Nat) : CausalGraph × Nat :=
  let id := g.nodes.length
  let g' := parents.foldl
    (fun acc p => acc.modifyNode p fun n => { n with children := n.children ++ [id] }) g
  (⟨g'.nodes ++ [⟨e, parents, [], false⟩]⟩, id)

/-- `CausalGraph::insert_root`. -/
def insert_root (g : CausalGraph) (e : Event) : CausalGraph × Nat :=
  g.insert e []

/-- `CausalGraph::mark_executed`: idempotent, no-op on an absent id. -/
def mark_executed (g : CausalGraph) (id : Nat) : CausalGraph :=
  g.modifyNode id fun n => { n with executed := true }

/-- `CausalGraph::executed_count`. -/
def executed_count (g : CausalGraph) : Nat :=
  (g.nodes.filter fun n => n.executed).length

/-- `CausalGraph::frontier`: every non-executed node all of whose parents
exist and are executed, in slot order. -/
def frontier (g : CausalGraph) : List Nat :=
  (List.range g.nodes.length).filter fun i =>
    match g.nodes.get? i with
    | some node =>
      !node.executed && node.parents.all fun p =>
        match g.nodes.get? p with
        | some pn => pn.executed
        | none => false
    | none => false

end CausalGraph

/-! ## Spec-side expressions and reachable states -/

/-- The horizontal-spread output the spec's clause 3 describes: one `BlockSet`
at one level higher for each horizontal neighbour currently AIR, in
neighbour order. -/
def Rules.spread_events (k : FluidKind) (w : World) (pos : BlockPos) (level : Nat) :
    List Event :=
  (Rules.horizontal_neighbors pos).filterMap fun n =>
    let nb := w.get_block n
    if nb = Block.AIR then
      some (Rules.block_set n nb (k.at_level (level + 1)))
    else
      none

/-- Chunks reachable from `Chunk::new` by `set_block` calls (`get_block` does
not change the chunk).  The local coordinates of each write are below 16, as
for every position produced by `BlockPos::local` (the source's array indexing
panics outside that range, so no chunk state results from such a call). -/
inductive ReachableChunk : Chunk → Prop where
  | new : ReachableChunk Chunk.new
  | step (c : Chunk) (pos : LocalBlockPos) (b : BlockId) :
      ReachableChunk c → pos.x < 16 → pos.z < 16 →
      ReachableChunk (c.set_block pos b)

/-! ## Concrete instances used by witnesses and counterexamples -/

/-- A fixed position on the surface. -/
def P0 : BlockPos := ⟨0, 5, 0⟩

/-- Flowing water (level 1) at `P0` over an empty world: AIR below, no
same-kind fluid above, no lower-level horizontal neighbour. -/
def W_c5 : World := World.new.set_block P0 (FluidKind.Water.at_level 1)

/-- As `W_c5` but with stone below the flowing water. -/
def W_c4 : World := W_c5.set_block ⟨0, 4, 0⟩ Block.STONE

/-- As `W_c4` but with a water source next to the flowing water, so the
flowing cell is supported. -/
def W_sup : World := W_c4.set_block ⟨1, 5, 0⟩ Block.WATER

/-- A one-node causal graph holding a single unexecuted root. -/
def G_one : CausalGraph := ⟨[⟨⟨.BlockNotify P0⟩, [], [], false⟩]⟩

/-! ## Helper lemmas -/

theorem assocLookup_update_self {κ ν : Type} [DecidableEq κ] (k : κ) (v : ν)
    (l : List (κ × ν)) : assocLookup k (assocUpdate k v l) = some v := by
  induction l with
  | nil => simp [assocUpdate, assocLookup]
  | cons hd t ih =>
    by_cases h : hd.1 = k
    · simp [assocUpdate, assocLookup, h]
    · simpa [assocUpdate, assocLookup, h] using ih

theorem assocLookup_update_other {κ ν : Type} [DecidableEq κ] {k k' : κ} (v : ν)
    (l : List (κ × ν)) (h : k' ≠ k) :
    assocLookup k' (assocUpdate k v l) = assocLookup k' l := by
  induction l with
  | nil => simp [assocUpdate, assocLookup, Ne.symm h]
  | cons hd t ih =>
    obtain ⟨a, b⟩ := hd
    by_cases hh : a = k
    · subst hh
      simp [assocUpdate, assocLookup, Ne.symm h]
    · by_cases haa : a = k'
      · simp [assocUpdate, assocLookup, hh, haa, h]
      · simp [assocUpdate, assocLookup, hh, haa, h, ih]

theorem assocUpdate_length_absent {κ ν : Type} [DecidableEq κ] (k : κ) (v : ν)
    (l : List (κ × ν)) (h : assocLookup k l = none) :
    (assocUpdate k v l).length = l.length + 1 := by
  induction l with
  | nil => simp [assocUpdate]
  | cons hd t ih =>
    obtain ⟨a, b⟩ := hd
    by_cases hh : a = k
    · simp [assocLookup, hh] at h
    · simp only [assocLookup, hh, if_false, ite_false, if_neg, not_false_iff] at h
      simp [assocUpdate, hh, ih h]

theorem ChunkSection.get_set_point (s : ChunkSection) (x y z : Nat) (b : BlockId) :
    (s.set x y z b).get x y z = b := by
  simp [ChunkSection.get, ChunkSection.set]

theorem Chunk.get_block_set_block_same (c : Chunk) (p : LocalBlockPos) (b : BlockId) :
    (c.set_block p b).get_block p = b := by
  unfold Chunk.set_block
  by_cases hb : b = BlockId.AIR
  · subst hb
    rw [if_pos rfl]
    cases h : c.sections p.section_index with
    | none => simp [Chunk.get_block, h]
    | some s =>
      by_cases he : (s.set p.x p.section_local_y p.z BlockId.AIR).is_empty = true
      · simp [Chunk.get_block, h, he, Function.update_same]
      · simp [Chunk.get_block, h, he, Function.update_same, ChunkSection.get_set_point]
  · simp [if_neg hb, Chunk.get_block, Function.update_same, ChunkSection.get_set_point]

/-! ## Claim theorems -/

/-- C9: for every position `p` (negative coordinates included) and block `b`,
reading `p` right after `World::set_block(p, b)` returns `b`: the
chunk/local/section coordinate derivations agree between the read and the
write path. -/
theorem world_set_block_get_block (w : World) (p : BlockPos) (b : BlockId) :
    (w.set_block p b).get_block p = b := by
  unfold World.set_block World.get_block
  rw [assocLookup_update_self]
  exact Chunk.get_block_set_block_same _ _ _

/-- C6: when the event position's block falls under gravity and the block
below is replaceable, the gravity rule emits exactly the two `BlockSet`s
swapping the two cells, a `BlockNotify` at the landing cell below, and a
`BlockNotify` above the vacated position; otherwise it emits nothing. -/
theorem gravity_swap_spec (w : World) (payload : EventPayload) :
    Rules.gravity w payload =
      if Block.has_gravity (w.get_block payload.pos) = true ∧
          Block.is_replaceable (w.get_block (Rules.below payload.pos)) = true then
        [Rules.block_set payload.pos (w.get_block payload.pos)
            (w.get_block (Rules.below payload.pos)),
         Rules.block_set (Rules.below payload.pos)
            (w.get_block (Rules.below payload.pos)) (w.get_block payload.pos),
         Rules.notify (Rules.below payload.pos),
         Rules.notify (Rules.above payload.pos)]
      else [] := by
  unfold Rules.gravity
  by_cases hg : Block.has_gravity (w.get_block payload.pos) = true
  · by_cases hr : Block.is_replaceable (w.get_block (Rules.below payload.pos)) = true
    · simp [hg, hr]
    · simp [hg, hr]
  · simp [hg]

/-- C2: evaluating the per-kind fluid rule on a `BlockSet` whose old block is
any level of that fluid kind and whose new block is not emits a `BlockNotify`
for each of the six face neighbours. -/
theorem fluid_removal_notifies (w : World) (k : FluidKind) (pos : BlockPos)
    (old new : BlockId) (hold : k.is_match old = true) (hnew : k.is_match new = false) :
    ∀ q ∈ pos.neighbors,
      Rules.notify q ∈ Rules.fluid_spread k w (.BlockSet pos old new) := by
  intro q hq
  simp only [Rules.fluid_spread]
  rw [if_pos ⟨hold, hnew⟩]
  exact List.mem_map_of_mem Rules.notify hq

/-- Witness for C2 at a concrete removal event: the +X neighbour is notified. -/
theorem fluid_removal_notifies_witness :
    Rules.notify ⟨1, 5, 0⟩ ∈
      Rules.fluid_spread .Water World.new (.BlockSet P0 Block.WATER Block.STONE) :=
  fluid_removal_notifies World.new .Water P0 Block.WATER Block.STONE
    (by decide) (by decide) ⟨1, 5, 0⟩ (by decide)

theorem Chunk.set_air_on_new (p : LocalBlockPos) :
    Chunk.new.set_block p Block.AIR = Chunk.new := rfl

theorem Chunk.get_block_new (p : LocalBlockPos) :
    Chunk.new.get_block p = BlockId.AIR := rfl

/-- C10: writing AIR at a position whose chunk is absent creates that chunk
(with no sections), bumps the chunk count by one, marks the chunk dirty, and
leaves every readable block of the world unchanged. -/
theorem world_set_air_absent_chunk (w : World) (p : BlockPos)
    (h : w.has_chunk p.chunk = false) :
    (w.set_block p Block.AIR).has_chunk p.chunk = true ∧
    (w.set_block p Block.AIR).chunk_count = w.chunk_count + 1 ∧
    p.chunk ∈ (w.set_block p Block.AIR).dirty ∧
    ∀ q : BlockPos, (w.set_block p Block.AIR).get_block q = w.get_block q := by
  have hn : assocLookup p.chunk w.chunks = none := by
    unfold World.has_chunk at h
    cases hc : assocLookup p.chunk w.chunks with
    | none => rfl
    | some c => rw [hc] at h; simp at h
  refine ⟨?_, ?_, ?_, ?_⟩
  · simp only [World.has_chunk, World.set_block]
    rw [assocLookup_update_self]
    rfl
  · simp only [World.chunk_count, World.set_block]
    exact assocUpdate_length_absent _ _ _ hn
  · simp only [World.set_block, insertSet]
    by_cases hmem : p.chunk ∈ w.dirty
    · simp [hmem]
    · simp [hmem]
  · intro q
    by_cases hq : q.chunk = p.chunk
    · simp only [World.get_block, World.set_block, hq, assocLookup_update_self, hn,
        Option.getD_none, Chunk.set_air_on_new, Chunk.get_block_new]
    · simp only [World.get_block, World.set_block]
      rw [assocLookup_update_other _ _ hq]

/-- Witness for C10 at the empty world. -/
theorem world_set_air_absent_chunk_witness :
    (World.new.set_block P0 Block.AIR).has_chunk P0.chunk = true ∧
    (World.new.set_block P0 Block.AIR).chunk_count = World.new.chunk_count + 1 ∧
    P0.chunk ∈ (World.new.set_block P0 Block.AIR).dirty ∧
    ∀ q : BlockPos, (World.new.set_block P0 Block.AIR).get_block q = World.new.get_block q :=
  world_set_air_absent_chunk World.new P0 (by decide)

/-- C7: an id is in the frontier exactly when its node exists, is not
executed, and all of its parents exist in the graph and are executed; in
particular a non-executed node with no parents is always in the frontier. -/
theorem frontier_correct (g : CausalGraph) :
    (∀ id : Nat, id ∈ g.frontier ↔
      ∃ node, g.get id = some node ∧ node.executed = false ∧
        ∀ p ∈ node.parents, ∃ pn, g.get p = some pn ∧ pn.executed = true) ∧
    (∀ id node, g.get id = some node → node.executed = false → node.parents = [] →
      id ∈ g.frontier) := by
  have main : ∀ id : Nat, id ∈ g.frontier ↔
      ∃ node, g.get id = some node ∧ node.executed = false ∧
        ∀ p ∈ node.parents, ∃ pn, g.get p = some pn ∧ pn.executed = true := by
    intro id
    unfold CausalGraph.frontier CausalGraph.get
    rw [List.mem_filter, List.mem_range]
    constructor
    · rintro ⟨hlt, hpred⟩
      cases hget : g.nodes.get? id with
      | none => rw [hget] at hpred; exact absurd hpred (by simp)
      | some node =>
        rw [hget] at hpred
        simp only [Bool.and_eq_true, Bool.not_eq_true', List.all_eq_true] at hpred
        refine ⟨node, rfl, hpred.1, ?_⟩
        intro p hp
        have := hpred.2 p hp
        cases hgp : g.nodes.get? p with
        | none => rw [hgp] at this; exact absurd this (by simp)
        | some pn => rw [hgp] at this; exact ⟨pn, rfl, this⟩
    · rintro ⟨node, hget, hexec, hpar⟩
      have hlt : id < g.nodes.length := by
        by_contra hge
        rw [List.get?_eq_none.mpr (Nat.le_of_not_lt hge)] at hget
        exact Option.noConfusion hget
      refine ⟨hlt, ?_⟩
      rw [hget]
      simp only [Bool.and_eq_true, Bool.not_eq_true', List.all_eq_true]
      refine ⟨hexec, ?_⟩
      intro p hp
      obtain ⟨pn, hpn, hpnx⟩ := hpar p hp
      rw [hpn]
      exact hpnx
  refine ⟨main, ?_⟩
  intro id node hget hexec hparents
  exact (main id).2 ⟨node, hget, hexec, by rw [hparents]; intro p hp; cases hp⟩

/-- Witness for C7: the single unexecuted root of `G_one` is in the frontier. -/
theorem frontier_correct_witness : 0 ∈ G_one.frontier :=
  (frontier_correct G_one).2 0 ⟨⟨.BlockNotify P0⟩, [], [], false⟩ rfl rfl rfl

theorem LocalBlockPos.section_local_y_lt (p : LocalBlockPos) : p.section_local_y < 16 := by
  unfold LocalBlockPos.section_local_y
  have h1 : 0 ≤ p.y % 16 := Int.emod_nonneg p.y (by decide)
  have h2 : p.y % 16 < 16 := Int.emod_lt_of_pos p.y (by decide)
  omega

theorem ChunkSection.index_lt {x y z : Nat} (hx : x < 16) (hy : y < 16) (hz : z < 16) :
    ChunkSection.index x y z < 4096 := by
  unfold ChunkSection.index
  omega

theorem Chunk.sections_mk (f : Int → Option ChunkSection) :
    (Chunk.mk f).sections = f := rfl

theorem ChunkSection.is_empty_false_of_set (s : ChunkSection) {x y z : Nat} {b : BlockId}
    (hx : x < 16) (hy : y < 16) (hz : z < 16) (hb : b ≠ BlockId.AIR) :
    (s.set x y z b).is_empty = false := by
  cases hE : (s.set x y z b).is_empty with
  | false => rfl
  | true =>
    exfalso
    unfold ChunkSection.is_empty at hE
    rw [List.all_eq_true] at hE
    have hidx : ChunkSection.index x y z ∈ List.range SECTION_VOLUME := by
      rw [List.mem_range]
      exact ChunkSection.index_lt hx hy hz
    have hAt := hE _ hidx
    rw [decide_eq_true_eq] at hAt
    rw [show (s.set x y z b).blocks (ChunkSection.index x y z) = b from
      Function.update_same _ _ _] at hAt
    exact hb hAt

/-- C8: every chunk reachable from `Chunk::new` by (in-range) `set_block`
calls stores no all-AIR section; writing AIR into an absent section leaves
the chunk unchanged; reading from an absent section returns AIR; and a write
of AIR that empties a section removes that section from the map. -/
theorem chunk_air_sparseness :
    (∀ c, ReachableChunk c → ∀ idx s, c.sections idx = some s → s.is_empty = false) ∧
    (∀ (c : Chunk) (pos : LocalBlockPos), c.sections pos.section_index = none →
      c.set_block pos Block.AIR = c) ∧
    (∀ (c : Chunk) (pos : LocalBlockPos), c.sections pos.section_index = none →
      c.get_block pos = Block.AIR) ∧
    (∀ (c : Chunk) (pos : LocalBlockPos) s, c.sections pos.section_index = some s →
      (s.set pos.x pos.section_local_y pos.z Block.AIR).is_empty = true →
      (c.set_block pos Block.AIR).sections pos.section_index = none) := by
  refine ⟨?_, ?_, ?_, ?_⟩
  · intro c hreach
    induction hreach with
    | new =>
      intro idx s hs
      exact Option.noConfusion hs
    | step c p b hc hx hz ih =>
      intro idx s hs
      simp only [Chunk.set_block] at hs
      split at hs
      · split at hs
        next s0 hsec =>
          split at hs
          next he =>
            simp only [Chunk.sections_mk] at hs
            by_cases hidx : idx = p.section_index
            · rw [hidx, Function.update_same] at hs
              exact Option.noConfusion hs
            · rw [Function.update_noteq hidx] at hs
              exact ih idx s hs
          next he =>
            simp only [Chunk.sections_mk] at hs
            by_cases hidx : idx = p.section_index
            · rw [hidx, Function.update_same] at hs
              have hs' := Option.some.inj hs
              rw [← hs']
              exact Bool.eq_false_iff.mpr he
            · rw [Function.update_noteq hidx] at hs
              exact ih idx s hs
        next hsec =>
          exact ih idx s hs
      · next hb =>
        simp only [Chunk.sections_mk] at hs
        by_cases hidx : idx = p.section_index
        · rw [hidx, Function.update_same] at hs
          have hs' := Option.some.inj hs
          rw [← hs']
          exact ChunkSection.is_empty_false_of_set _ hx p.section_local_y_lt hz hb
        · rw [Function.update_noteq hidx] at hs
          exact ih idx s hs
  · intro c pos h
    simp only [Chunk.set_block, h]
    rw [if_pos (show Block.AIR = BlockId.AIR from rfl)]
  · intro c pos h
    simp only [Chunk.get_block, h]
    rfl
  · intro c pos s hsec hemp
    simp only [Chunk.set_block, hsec]
    rw [if_pos (show Block.AIR = BlockId.AIR from rfl), if_pos hemp]
    exact Function.update_same _ _ _

/-- Witness for C8: the section holding the one stone block of a concrete
reachable chunk is not empty. -/
theorem chunk_air_sparseness_witness :
    (ChunkSection.new_empty.set 1 2 3 Block.STONE).is_empty = false :=
  chunk_air_sparseness.1 (Chunk.new.set_block ⟨1, 2, 3⟩ Block.STONE)
    (ReachableChunk.step Chunk.new ⟨1, 2, 3⟩ Block.STONE ReachableChunk.new
      (by decide) (by decide))
    0 (ChunkSection.new_empty.set 1 2 3 Block.STONE) rfl

theorem FluidKind.is_match_of_level {k : FluidKind} {id : BlockId} {l : Nat}
    (h : k.level id = some l) : k.is_match id = true := by
  unfold FluidKind.level at h
  unfold FluidKind.is_match
  by_cases hc : k.base_id ≤ id.val ∧ id.val ≤ k.base_id + 15
  · exact decide_eq_true hc
  · rw [if_neg hc] at h
    exact Option.noConfusion h

theorem Rules.horizontal_ne (pos : BlockPos) :
    ∀ n ∈ Rules.horizontal_neighbors pos, n ≠ pos := by
  obtain ⟨x, y, z⟩ := pos
  intro n hn
  simp only [Rules.horizontal_neighbors, List.mem_cons, List.not_mem_nil, or_false] at hn
  rcases hn with rfl | rfl | rfl | rfl <;>
    · intro he
      rw [BlockPos.mk.injEq] at he
      omega

theorem Rules.below_ne (pos : BlockPos) : Rules.below pos ≠ pos := by
  obtain ⟨x, y, z⟩ := pos
  intro he
  rw [show Rules.below ⟨x, y, z⟩ = ⟨x, y - 1, z⟩ from rfl, BlockPos.mk.injEq] at he
  omega

/-- C3: on a `BlockNotify` at a cell holding flowing fluid (level ≥ 1) the
per-kind fluid rule outputs exactly the AIR replacement plus the four
horizontal notifies iff the cell has no same-kind fluid directly above and
no horizontal same-kind neighbour at a strictly lower level; and a source
cell (level 0) is never replaced by AIR. -/
theorem fluid_drainage_iff (w : World) (k : FluidKind) (pos : BlockPos) (l : Nat)
    (hl : k.level (w.get_block pos) = some l) :
    (1 ≤ l →
      ((Rules.fluid_spread k w (.BlockNotify pos) =
          Rules.block_set pos (w.get_block pos) Block.AIR :: Rules.notify_horizontal pos) ↔
        Rules.has_support w k pos l = false)) ∧
    (l = 0 → ∀ old : BlockId,
      Rules.block_set pos old Block.AIR ∉ Rules.fluid_spread k w (.BlockNotify pos)) := by
  have hm : k.is_match (w.get_block pos) = true := FluidKind.is_match_of_level hl
  have hred : Rules.fluid_spread k w (.BlockNotify pos) = Rules.fluid_core k w pos true := by
    simp [Rules.fluid_spread, hm]
  constructor
  · intro h1
    rw [hred]
    simp only [Rules.fluid_core, hl]
    by_cases hsup : Rules.has_support w k pos l = false
    · rw [if_pos ⟨h1, by trivial, hsup⟩]
      exact ⟨fun _ => hsup, fun _ => rfl⟩
    · have hsupT : Rules.has_support w k pos l = true := by
        cases hbool : Rules.has_support w k pos l with
        | false => exact absurd hbool hsup
        | true => rfl
      rw [if_neg (by simp [hsupT])]
      constructor
      · intro heq
        exfalso
        by_cases hb : w.get_block (Rules.below pos) = Block.AIR
        · rw [if_pos hb] at heq
          have hlen := congrArg List.length heq
          simp [Rules.notify_horizontal, Rules.horizontal_neighbors] at hlen
        · rw [if_neg hb] at heq
          by_cases hmx : k.max_spread ≤ l
          · rw [if_pos hmx] at heq
            exact List.noConfusion heq
          · rw [if_neg hmx] at heq
            have hlen := congrArg List.length heq
            have hle := List.length_filterMap_le
              (fun n => let nb := w.get_block n;
                if nb = Block.AIR then
                  some (Rules.block_set n nb (k.at_level (l + 1)))
                else none)
              (Rules.horizontal_neighbors pos)
            rw [heq] at hle
            simp [Rules.notify_horizontal, Rules.horizontal_neighbors] at hle
      · intro hfalse
        rw [hsupT] at hfalse
        exact Bool.noConfusion hfalse
  · intro h0 old
    subst h0
    rw [hred]
    simp only [Rules.fluid_core, hl]
    rw [if_neg (by simp)]
    by_cases hb : w.get_block (Rules.below pos) = Block.AIR
    · rw [if_pos hb]
      intro hmem
      rw [List.mem_singleton] at hmem
      have hpos := congrArg (fun e => e.payload.pos) hmem
      simp only [Rules.block_set, EventPayload.pos] at hpos
      exact Rules.below_ne pos hpos.symm
    · rw [if_neg hb]
      by_cases hmx : k.max_spread ≤ 0
      · rw [if_pos hmx]
        exact List.not_mem_nil _
      · rw [if_neg hmx]
        intro hmem
        rw [List.mem_filterMap] at hmem
        obtain ⟨n, hn, hfn⟩ := hmem
        split at hfn
        · have hfn' := Option.some.inj hfn
          have hpos := congrArg (fun e => e.payload.pos) hfn'
          simp only [Rules.block_set, EventPayload.pos] at hpos
          exact Rules.horizontal_ne pos n hn hpos
        · exact Option.noConfusion hfn

/-- Witness for C3 at a concrete unsupported flowing-water cell. -/
theorem fluid_drainage_iff_witness :
    Rules.fluid_spread .Water W_c5 (.BlockNotify P0) =
      Rules.block_set P0 (W_c5.get_block P0) Block.AIR :: Rules.notify_horizontal P0 :=
  ((fluid_drainage_iff W_c5 .Water P0 1 (by decide)).1 (by decide)).mpr (by decide)

theorem fluid_core_no_drain (w : World) (k : FluidKind) (pos : BlockPos) (l : Nat)
    (hl : k.level (w.get_block pos) = some l) (inotify : Bool)
    (hnd : ¬(0 < l ∧ inotify = true ∧ Rules.has_support w k pos l = false)) :
    Rules.fluid_core k w pos inotify =
      if w.get_block (Rules.below pos) = Block.AIR then
        [Rules.block_set (Rules.below pos) (w.get_block (Rules.below pos)) (k.at_level 1)]
      else if l < k.max_spread then
        Rules.spread_events k w pos l
      else [] := by
  simp only [Rules.fluid_core, hl]
  rw [if_neg hnd]
  by_cases hb : w.get_block (Rules.below pos) = Block.AIR
  · rw [if_pos hb, if_pos hb]
  · rw [if_neg hb, if_neg hb]
    by_cases hmx : k.max_spread ≤ l
    · rw [if_pos hmx, if_neg (by omega)]
    · rw [if_neg hmx, if_pos (by omega)]
      rfl

/-- C4 (amended): when the per-kind fluid rule fires at a fluid cell whose
cell below is not AIR and the drainage branch does not apply (the event is a
`BlockSet`, or the cell is a source, or it is supported): below the kind's
maximum spread level it emits exactly one `BlockSet` at level + 1 for each
horizontal neighbour currently AIR, and at or above the maximum it emits
nothing. -/
theorem fluid_horizontal_spread_amended (w : World) (k : FluidKind) (pos : BlockPos)
    (l : Nat) (hl : k.level (w.get_block pos) = some l)
    (hbelow : w.get_block (Rules.below pos) ≠ Block.AIR) :
    (∀ old new : BlockId, k.is_match new = true →
      Rules.fluid_spread k w (.BlockSet pos old new) =
        if l < k.max_spread then Rules.spread_events k w pos l else []) ∧
    ((l = 0 ∨ Rules.has_support w k pos l = true) →
      Rules.fluid_spread k w (.BlockNotify pos) =
        if l < k.max_spread then Rules.spread_events k w pos l else []) := by
  constructor
  · intro old new hnew
    have hred : Rules.fluid_spread k w (.BlockSet pos old new) =
        Rules.fluid_core k w pos false := by
      simp [Rules.fluid_spread, hnew]
    rw [hred, fluid_core_no_drain w k pos l hl false (by simp), if_neg hbelow]
  · intro hnd
    have hm : k.is_match (w.get_block pos) = true := FluidKind.is_match_of_level hl
    have hred : Rules.fluid_spread k w (.BlockNotify pos) =
        Rules.fluid_core k w pos true := by
      simp [Rules.fluid_spread, hm]
    rw [hred, fluid_core_no_drain w k pos l hl true ?_, if_neg hbelow]
    rintro ⟨hpos, -, hsup⟩
    rcases hnd with h0 | hsupT
    · omega
    · rw [hsupT] at hsup
      exact Bool.noConfusion hsup

/-- C4 counterexample: a `BlockNotify` at unsupported flowing water (level 1,
strictly below water's maximum spread 7) over stone, with the +X neighbour
AIR, does not emit the claimed spread `BlockSet` for that neighbour -- the
drainage branch fires instead. -/
theorem fluid_horizontal_spread_counterexample :
    FluidKind.Water.level (W_c4.get_block P0) = some 1 ∧
    W_c4.get_block (Rules.below P0) ≠ Block.AIR ∧
    1 < FluidKind.Water.max_spread ∧
    W_c4.get_block ⟨1, 5, 0⟩ = Block.AIR ∧
    Rules.block_set ⟨1, 5, 0⟩ Block.AIR (FluidKind.Water.at_level 2) ∉
      Rules.fluid_spread .Water W_c4 (.BlockNotify P0) := by
  decide

/-- Witness for amended C4 at a concrete supported flowing-water cell over
stone. -/
theorem fluid_horizontal_spread_amended_witness :
    Rules.fluid_spread .Water W_sup (.BlockNotify P0) =
      if 1 < FluidKind.Water.max_spread then Rules.spread_events .Water W_sup P0 1
      else [] :=
  (fluid_horizontal_spread_amended W_sup .Water P0 1 (by decide) (by decide)).2
    (Or.inr (by decide))

/-- C5 (amended): when the per-kind fluid rule fires at a cell holding this
fluid with AIR directly below and the drainage branch does not apply (the
event is a `BlockSet`, or the cell is a source, or it is supported), it emits
exactly one event: a `BlockSet` placing the fluid at level 1 in the cell
below, with no horizontal spread in the same invocation. -/
theorem fluid_fall_amended (w : World) (k : FluidKind) (pos : BlockPos) (l : Nat)
    (hl : k.level (w.get_block pos) = some l)
    (hbelow : w.get_block (Rules.below pos) = Block.AIR) :
    (∀ old new : BlockId, k.is_match new = true →
      Rules.fluid_spread k w (.BlockSet pos old new) =
        [Rules.block_set (Rules.below pos) (w.get_block (Rules.below pos))
          (k.at_level 1)]) ∧
    ((l = 0 ∨ Rules.has_support w k pos l = true) →
      Rules.fluid_spread k w (.BlockNotify pos) =
        [Rules.block_set (Rules.below pos) (w.get_block (Rules.below pos))
          (k.at_level 1)]) := by
  constructor
  · intro old new hnew
    have hred : Rules.fluid_spread k w (.BlockSet pos old new) =
        Rules.fluid_core k w pos false := by
      simp [Rules.fluid_spread, hnew]
    rw [hred, fluid_core_no_drain w k pos l hl false (by simp), if_pos hbelow]
  · intro hnd
    have hm : k.is_match (w.get_block pos) = true := FluidKind.is_match_of_level hl
    have hred : Rules.fluid_spread k w (.BlockNotify pos) =
        Rules.fluid_core k w pos true := by
      simp [Rules.fluid_spread, hm]
    rw [hred, fluid_core_no_drain w k pos l hl true ?_, if_pos hbelow]
    rintro ⟨hpos, -, hsup⟩
    rcases hnd with h0 | hsupT
    · omega
    · rw [hsupT] at hsup
      exact Bool.noConfusion hsup

/-- C5 counterexample: a `BlockNotify` at unsupported flowing water (level 1)
with AIR below drains instead of emitting the single fall `BlockSet`. -/
theorem fluid_fall_counterexample :
    FluidKind.Water.level (W_c5.get_block P0) = some 1 ∧
    W_c5.get_block (Rules.below P0) = Block.AIR ∧
    Rules.fluid_spread .Water W_c5 (.BlockNotify P0) ≠
      [Rules.block_set (Rules.below P0) (W_c5.get_block (Rules.below P0))
        (FluidKind.Water.at_level 1)] := by
  decide

/-- Witness for amended C5 at a concrete `BlockSet` placing flowing water
over AIR. -/
theorem fluid_fall_amended_witness :
    Rules.fluid_spread .Water W_c5 (.BlockSet P0 Block.AIR (FluidKind.Water.at_level 1)) =
      [Rules.block_set (Rules.below P0) (W_c5.get_block (Rules.below P0))
        (FluidKind.Water.at_level 1)] :=
  (fluid_fall_amended W_c5 .Water P0 1 (by decide) (by decide)).1 Block.AIR
    (FluidKind.Water.at_level 1) (by decide)

end UltimateMC
